import Mathlib

/-
Verification development for the AudioSpectrum component
(src/src/components/AudioSpectrum.tsx).

The component keeps a time-bounded history of frequency snapshots, drives a
per-frame loop over an analyser and a canvas, and renders three layers: an
instantaneous logarithmic bar spectrum, a 220 Hz reference line, and a
scrolling spectrogram in the bottom third of the canvas.

The embedding below translates the source directly:
  - SpectrumData, the history append with eviction (the setSpectrumHistory
    callback inside animate),
  - the capture lifecycle (startAudioAnalysis, stopAudioAnalysis, animate)
    as explicit state passing over a CaptureState record, with the host
    frame scheduler modelled by a pending callback id,
  - the drawing functions (drawLogSpectrum, draw220HzLine, drawSpectrogram,
    drawSpectrum) as functions producing the geometry they paint, with the
    logarithmic frequency math over the real numbers.
-/

/-- One timestamped frequency snapshot, as in the SpectrumData interface:
timestamp in integer milliseconds, frequencies a list of byte amplitudes. -/
structure SpectrumData where
  timestamp : ℤ
  frequencies : List ℕ
deriving DecidableEq, Repr

/-- Retention window of the history buffer: 5 * 60 * 1000 ms. -/
def HISTORY_DURATION : ℤ := 5 * 60 * 1000

/-- Analysis window size constant from the component. -/
def FFT_SIZE : ℕ := 2048

/-- Canvas width constant from the component. -/
def CANVAS_WIDTH : ℕ := 800

/-- Canvas height constant from the component. -/
def CANVAS_HEIGHT : ℕ := 400

/-- The history update performed inside animate: append the new snapshot,
then keep exactly the entries whose age relative to the append time is at
most the retention window W. In the component W is HISTORY_DURATION; it is
a parameter here so the retention property can be stated for every W. -/
def appendSnapshot (W : ℤ) (prev : List SpectrumData) (now : ℤ)
    (freqs : List ℕ) : List SpectrumData :=
  (prev ++ [SpectrumData.mk now freqs]).filter (fun d => now - d.timestamp ≤ W)

/-- State of the component: the five refs, the history, and the two
observable flags. The pending field models the host scheduler: the id of
the outstanding requestAnimationFrame callback, if any. The streamRef
holds the ids of the tracks of the held stream. -/
structure CaptureState where
  canvasRef : Option Unit
  audioContextRef : Option Unit
  analyserRef : Option Unit
  streamRef : Option (List ℕ)
  animationId : ℕ
  pending : Option ℕ
  spectrumHistory : List SpectrumData
  isActive : Bool
  errorReported : Bool
deriving DecidableEq, Repr

/-- Release actions observable during stopAudioAnalysis: cancelling the
scheduled frame, stopping a stream track, closing the audio context. -/
inductive StopEvent where
  | cancelFrame (id : ℕ)
  | stopTrack (t : ℕ)
  | closeContext
deriving DecidableEq, Repr

/-- stopAudioAnalysis, translated line by line: cancel the animation frame
when animationRef.current is nonzero, stop every track of the held stream
and null the stream ref, close and null the audio context, null the
analyser ref, set isActive to false. The returned list records the release
actions that were performed. -/
def stopAudioAnalysis (s : CaptureState) : CaptureState × List StopEvent :=
  let pending1 : Option ℕ :=
    if s.animationId ≠ 0 then
      (if s.pending = some s.animationId then none else s.pending)
    else s.pending
  let cancelEvents : List StopEvent :=
    if s.animationId ≠ 0 then [StopEvent.cancelFrame s.animationId] else []
  let trackEvents : List StopEvent :=
    (s.streamRef.getD []).map StopEvent.stopTrack
  let ctxEvents : List StopEvent :=
    if s.audioContextRef.isSome then [StopEvent.closeContext] else []
  ({ s with pending := pending1, streamRef := none, audioContextRef := none,
            analyserRef := none, isActive := false },
   cancelEvents ++ trackEvents ++ ctxEvents)

/-- Whether the host still holds a scheduled frame callback for the
component; a subsequent frame callback can fire only when this is true. -/
def hasScheduledFrame (s : CaptureState) : Bool :=
  s.pending.isSome

/-- Per-frame environment: the clock value, the sampler output, whether
canvas.getContext succeeds, and the id the host assigns to the next
requestAnimationFrame call. -/
structure AnimateEnv where
  now : ℤ
  dataArray : List ℕ
  ctxOk : Bool
  freshId : ℕ
deriving DecidableEq, Repr

/-- The body of animate: return early when the analyser ref or the canvas
ref is null, or when getContext fails; otherwise append the snapshot to the
history with eviction, draw, and schedule the next frame, storing the new
callback id in animationRef. The Bool reports whether the frame was
actually processed (appended and drawn). -/
def animate (s : CaptureState) (env : AnimateEnv) : CaptureState × Bool :=
  if s.analyserRef = none then (s, false)
  else if s.canvasRef = none then (s, false)
  else if env.ctxOk = false then (s, false)
  else
    ({ s with
        spectrumHistory :=
          appendSnapshot HISTORY_DURATION s.spectrumHistory env.now env.dataArray,
        animationId := env.freshId,
        pending := some env.freshId }, true)

/-- Acquisition environment for startAudioAnalysis: whether getUserMedia
resolves (and with which tracks), and whether each later synchronous step
(AudioContext constructor, createAnalyser, createMediaStreamSource and
connect) succeeds. -/
structure AcqEnv where
  gumOk : Bool
  tracks : List ℕ
  ctxOk : Bool
  analyserOk : Bool
  sourceOk : Bool
deriving DecidableEq, Repr

/-- startAudioAnalysis up to the call of animate: each acquisition step
stores its handle in the corresponding ref as soon as it succeeds; any
thrown step jumps to the catch block, which only logs the error and sets
isActive to false — it releases nothing. -/
def startAudioAnalysis (s : CaptureState) (env : AcqEnv) : CaptureState :=
  if env.gumOk = false then { s with isActive := false, errorReported := true }
  else
    let s1 := { s with streamRef := some env.tracks }
    if env.ctxOk = false then { s1 with isActive := false, errorReported := true }
    else
      let s2 := { s1 with audioContextRef := some () }
      if env.analyserOk = false then { s2 with isActive := false, errorReported := true }
      else
        let s3 := { s2 with analyserRef := some () }
        if env.sourceOk = false then { s3 with isActive := false, errorReported := true }
        else { s3 with isActive := true }

/-- Consistency of the scheduler model with animationRef: when a frame
callback is pending, its id is exactly the one stored in animationRef, and
that id is nonzero. This holds throughout the program: animationRef is
initialised to 0 with no frame pending, and the only scheduling site is the
tail of animate, which stores the fresh positive id it was just given. -/
def PendingConsistent (s : CaptureState) : Prop :=
  s.pending = none ∨ (s.pending = some s.animationId ∧ s.animationId ≠ 0)

instance (s : CaptureState) : Decidable (PendingConsistent s) :=
  inferInstanceAs (Decidable (_ ∨ _))

/-- The initial state of the component: every ref null, animationRef 0,
no pending frame, empty history, inactive. -/
def initState : CaptureState :=
  { canvasRef := some (), audioContextRef := none, analyserRef := none,
    streamRef := none, animationId := 0, pending := none,
    spectrumHistory := [], isActive := false, errorReported := false }

lemma initState_pendingConsistent : PendingConsistent initState :=
  Or.inl rfl

lemma animate_pendingConsistent (s : CaptureState) (env : AnimateEnv)
    (hfresh : env.freshId ≠ 0) (hs : PendingConsistent s) :
    PendingConsistent (animate s env).1 := by
  unfold animate
  split
  · exact hs
  · split
    · exact hs
    · split
      · exact hs
      · exact Or.inr ⟨rfl, hfresh⟩

lemma startAudioAnalysis_pendingConsistent (s : CaptureState) (env : AcqEnv)
    (hs : PendingConsistent s) :
    PendingConsistent (startAudioAnalysis s env) := by
  unfold startAudioAnalysis
  unfold PendingConsistent at hs ⊢
  split
  · exact hs
  · split
    · exact hs
    · split
      · exact hs
      · split
        · exact hs
        · exact hs

lemma stopAudioAnalysis_pendingConsistent (s : CaptureState)
    (hs : PendingConsistent s) :
    PendingConsistent (stopAudioAnalysis s).1 := by
  unfold stopAudioAnalysis PendingConsistent
  rcases hs with h | ⟨h1, h2⟩
  · simp only [h]
    split
    · simp
    · simp
  · simp only [h1, h2]
    simp [h2]

/-- A filled rectangle painted on the canvas. -/
structure Rect where
  x : ℝ
  y : ℝ
  w : ℝ
  h : ℝ

/-- A text label painted on the canvas. -/
structure TextLabel where
  text : String
  x : ℝ
  y : ℝ

/-- The 220 Hz reference line: a vertical stroke at abscissa x from y0 down
to y1. -/
structure RefLine where
  x : ℝ
  y0 : ℝ
  y1 : ℝ

/-- The forward logarithmic frequency-to-pixel map used by draw220HzLine:
x is the position of log10 freq between log10 20 and log10 nyquist, scaled
to the canvas width. -/
noncomputable def frequencyToX (width : ℕ) (nyq freq : ℝ) : ℝ :=
  (Real.logb 10 freq - Real.logb 10 20) / (Real.logb 10 nyq - Real.logb 10 20)
    * (width : ℝ)

/-- The pixel-to-frequency map used inside the drawLogSpectrum loop:
the logarithmic frequency at pixel x, exponentiated back. -/
noncomputable def pixelToFrequency (width : ℕ) (nyq x : ℝ) : ℝ :=
  (10 : ℝ) ^ (Real.logb 10 20
    + (x / (width : ℝ)) * (Real.logb 10 nyq - Real.logb 10 20))

/-- The inverse map of the bar renderer: frequency at pixel x divided by
the frequency per bin (nyquist over the bin count), rounded to the nearest
bin index. -/
noncomputable def xToFrequencyBinIndex (width : ℕ) (nyq : ℝ) (binCount : ℕ)
    (x : ℝ) : ℤ :=
  round (pixelToFrequency width nyq x / (nyq / (binCount : ℝ)))

/-- The frequency a bin index stands for: index times frequency per bin. -/
noncomputable def binIndexToFrequency (nyq : ℝ) (binCount : ℕ) (i : ℤ) : ℝ :=
  (i : ℝ) * (nyq / (binCount : ℝ))

/-- The full round trip of the claim: map a frequency to its pixel, run the
inverse of the bar renderer at that pixel (logarithmic frequency, then
nearest bin), and map the frequency of that bin back to a pixel. -/
noncomputable def roundTripX (width binCount : ℕ) (nyq f : ℝ) : ℝ :=
  frequencyToX width nyq
    (binIndexToFrequency nyq binCount
      (xToFrequencyBinIndex width nyq binCount (frequencyToX width nyq f)))

/-- drawLogSpectrum: for every even pixel column, compute the logarithmic
frequency, the nearest bin, and when the bin index is in range read that
amplitude and emit a bar of height amplitude over 255 times the canvas
height, anchored at the bottom edge. -/
noncomputable def drawLogSpectrum (width height : ℕ) (nyq : ℝ)
    (dataArray : List ℕ) : List Rect :=
  ((List.range width).filter (fun px => px % 2 = 0)).filterMap (fun (px : ℕ) =>
    let binIndex := xToFrequencyBinIndex width nyq dataArray.length (px : ℝ)
    if 0 ≤ binIndex ∧ binIndex < (dataArray.length : ℤ) then
      let amplitude := dataArray.getD binIndex.toNat 0
      let barHeight : ℝ := ((amplitude : ℝ) / 255) * (height : ℝ)
      some ⟨(px : ℝ), (height : ℝ) - barHeight, 2, barHeight⟩
    else none)

/-- The amplitude-array reads performed by the drawLogSpectrum loop: the
bin index of each even pixel column whose guard (index at least 0 and
below the buffer length) passes. -/
noncomputable def drawLogSpectrumAccesses (width : ℕ) (nyq : ℝ)
    (bufferLength : ℕ) : List ℤ :=
  ((List.range width).filter (fun px => px % 2 = 0)).filterMap (fun (px : ℕ) =>
    let binIndex := xToFrequencyBinIndex width nyq bufferLength (px : ℝ)
    if 0 ≤ binIndex ∧ binIndex < (bufferLength : ℤ) then some binIndex
    else none)

/-- draw220HzLine: a vertical stroke at the logarithmic position of 220 Hz,
from the top of the canvas down to two thirds of its height. -/
noncomputable def draw220HzLine (width height : ℕ) (nyq : ℝ) : RefLine :=
  ⟨frequencyToX width nyq 220, 0, (height : ℝ) * 2 / 3⟩

/-- The linear age-to-pixel map of the spectrogram: age zero at the right
edge, one retention window of age at the left edge. -/
noncomputable def ageToX (ageMs width retentionMs : ℝ) : ℝ :=
  width - ageMs * (width / retentionMs)

/-- drawSpectrogram: nothing when the history is empty; otherwise, for each
entry no older than the retention window, a column of cells at the age
abscissa, the bottom third of the canvas divided evenly over the bins of
the entry, plus the two time labels above the band. -/
noncomputable def drawSpectrogram (width height : ℕ)
    (history : List SpectrumData) (now : ℤ) : List Rect × List TextLabel :=
  if history = [] then ([], [])
  else
    (history.flatMap (fun data =>
       let age : ℤ := now - data.timestamp
       if HISTORY_DURATION < age then []
       else
         let x : ℝ := ageToX ((age : ℤ) : ℝ) (width : ℝ) ((HISTORY_DURATION : ℤ) : ℝ)
         let spectrogramHeight : ℝ := (height : ℝ) / 3
         let spectrogramY : ℝ := (height : ℝ) - spectrogramHeight
         let freqStep : ℝ := spectrogramHeight / (data.frequencies.length : ℝ)
         (List.range data.frequencies.length).map (fun (i : ℕ) =>
           ⟨x, spectrogramY + (i : ℝ) * freqStep, 2, freqStep⟩)),
     [⟨"Now", (width : ℝ) - 30, ((height : ℝ) - (height : ℝ) / 3) - 5⟩,
      ⟨"5 min ago", 10, ((height : ℝ) - (height : ℝ) / 3) - 5⟩])

/-- The output of one drawSpectrum call: the clearing background fill and
the three layers. -/
structure RenderOutput where
  background : Rect
  spectrumBars : List Rect
  refLine : RefLine
  spectrogramCells : List Rect
  spectrogramLabels : List TextLabel

/-- drawSpectrum: clear the canvas, draw the instantaneous spectrum, the
220 Hz reference line, and the spectrogram layers. -/
noncomputable def drawSpectrum (width height : ℕ) (nyq : ℝ)
    (dataArray : List ℕ) (history : List SpectrumData) (now : ℤ) :
    RenderOutput :=
  { background := ⟨0, 0, (width : ℝ), (height : ℝ)⟩
    spectrumBars := drawLogSpectrum width height nyq dataArray
    refLine := draw220HzLine width height nyq
    spectrogramCells := (drawSpectrogram width height history now).1
    spectrogramLabels := (drawSpectrogram width height history now).2 }

/-- C1: immediately after any append (which uses the append time as now),
every retained snapshot of the history buffer satisfies
now - timestamp ≤ W, for every retention window W and every previous
history; in the component the window HISTORY_DURATION is 300000 ms. -/
theorem appendSnapshot_retention :
    HISTORY_DURATION = 300000 ∧
    ∀ (W : ℤ) (prev : List SpectrumData) (now : ℤ) (freqs : List ℕ),
      ∀ d ∈ appendSnapshot W prev now freqs, now - d.timestamp ≤ W := by
  refine ⟨rfl, ?_⟩
  intro W prev now freqs d hd
  have h := List.mem_filter.mp hd
  simpa using h.2

/-- Witness for C1 at a concrete input: the appended snapshot itself is
retained and satisfies the age bound. -/
theorem appendSnapshot_retention_witness :
    SpectrumData.mk 7 [2] ∈ appendSnapshot 300000 [] 7 [2] ∧
      (7 : ℤ) - (SpectrumData.mk 7 [2]).timestamp ≤ 300000 :=
  ⟨by decide,
   appendSnapshot_retention.2 300000 [] 7 [2] (SpectrumData.mk 7 [2]) (by decide)⟩

lemma foldl_appendSnapshot_sorted (W : ℤ) :
    ∀ (ops : List (ℤ × List ℕ)) (acc : List SpectrumData),
      ((acc.map SpectrumData.timestamp) ++ ops.map Prod.fst).Pairwise (· ≤ ·) →
      ((ops.foldl (fun a p => appendSnapshot W a p.1 p.2) acc).map
          SpectrumData.timestamp).Pairwise (· ≤ ·) ∧
        (ops.foldl (fun a p => appendSnapshot W a p.1 p.2) acc).length ≤
          acc.length + ops.length := by
  intro ops
  induction ops with
  | nil =>
    intro acc h
    refine ⟨by simpa using h, by simp⟩
  | cons p rest ih =>
    intro acc h
    obtain ⟨t, f⟩ := p
    have hsub : List.Sublist
        ((appendSnapshot W acc t f).map SpectrumData.timestamp)
        ((acc.map SpectrumData.timestamp) ++ [t]) := by
      unfold appendSnapshot
      have h1 := (List.filter_sublist
        (l := acc ++ [SpectrumData.mk t f])
        (p := fun d => decide (t - d.timestamp ≤ W)))
      have h2 := h1.map SpectrumData.timestamp
      simpa using h2
    have hlen : (appendSnapshot W acc t f).length ≤ acc.length + 1 := by
      unfold appendSnapshot
      have := List.length_filter_le
        (p := fun d => decide (t - d.timestamp ≤ W)) (l := acc ++ [SpectrumData.mk t f])
      simpa using this
    have h' : (((acc.map SpectrumData.timestamp) ++ [t]) ++ rest.map Prod.fst).Pairwise
        (· ≤ ·) := by
      simpa [List.append_assoc] using h
    have hnext : ((appendSnapshot W acc t f).map SpectrumData.timestamp ++
        rest.map Prod.fst).Pairwise (· ≤ ·) :=
      (h'.sublist (hsub.append_right (rest.map Prod.fst)))
    have := ih (appendSnapshot W acc t f) hnext
    refine ⟨by simpa using this.1, ?_⟩
    have h3 := this.2
    simp only [List.foldl_cons, List.length_cons]
    omega

/-- C6: folding N appends at strictly increasing timestamps over the empty
history yields a history whose timestamps are sorted ascending and whose
length is at most N, for every retention window W. -/
theorem history_sorted_of_increasing :
    ∀ (W : ℤ) (ops : List (ℤ × List ℕ)),
      (ops.map Prod.fst).Pairwise (· < ·) →
      ((ops.foldl (fun a p => appendSnapshot W a p.1 p.2)
          ([] : List SpectrumData)).map SpectrumData.timestamp).Sorted (· ≤ ·) ∧
        (ops.foldl (fun a p => appendSnapshot W a p.1 p.2)
          ([] : List SpectrumData)).length ≤ ops.length := by
  intro W ops h
  have h2 : ((([] : List SpectrumData).map SpectrumData.timestamp) ++
      ops.map Prod.fst).Pairwise (· ≤ ·) := by
    simpa using h.imp le_of_lt
  have h3 := foldl_appendSnapshot_sorted W ops [] h2
  exact ⟨h3.1, by simpa using h3.2⟩

/-- Witness for C6 at a concrete input: two appends at timestamps 1 and 2. -/
theorem history_sorted_of_increasing_witness :
    (([((1 : ℤ), ([] : List ℕ)), (2, [])].map Prod.fst).Pairwise (· < ·)) ∧
    ((([((1 : ℤ), ([] : List ℕ)), (2, [])].foldl
        (fun a p => appendSnapshot 300000 a p.1 p.2)
        ([] : List SpectrumData)).map SpectrumData.timestamp).Sorted (· ≤ ·) ∧
      ([((1 : ℤ), ([] : List ℕ)), (2, [])].foldl
        (fun a p => appendSnapshot 300000 a p.1 p.2)
        ([] : List SpectrumData)).length ≤ 2) :=
  ⟨by decide, by
    have h := history_sorted_of_increasing 300000
      [((1 : ℤ), ([] : List ℕ)), (2, [])] (by decide)
    simpa using h⟩

/-- C2: from any state whose pending frame callback is consistent with
animationRef (which holds at every point of the program), stopAudioAnalysis
leaves no scheduled frame callback, so zero subsequent frame callbacks can
fire, and the four resources are gone: the frame callback cancelled, the
stream ref nulled with a stop event for every held track, the audio context
ref nulled with a close event when one was held, the analyser ref nulled;
the observable status becomes inactive. -/
theorem stopAudioAnalysis_releases :
    ∀ s : CaptureState, PendingConsistent s →
      (stopAudioAnalysis s).1.pending = none ∧
      hasScheduledFrame (stopAudioAnalysis s).1 = false ∧
      (stopAudioAnalysis s).1.streamRef = none ∧
      (stopAudioAnalysis s).1.audioContextRef = none ∧
      (stopAudioAnalysis s).1.analyserRef = none ∧
      (stopAudioAnalysis s).1.isActive = false ∧
      (∀ tracks, s.streamRef = some tracks →
        ∀ t ∈ tracks, StopEvent.stopTrack t ∈ (stopAudioAnalysis s).2) ∧
      (s.audioContextRef.isSome = true →
        StopEvent.closeContext ∈ (stopAudioAnalysis s).2) := by
  intro s hs
  have hpend : (stopAudioAnalysis s).1.pending = none := by
    rcases hs with h | ⟨h1, h2⟩
    · unfold stopAudioAnalysis
      simp only [h]
      split
      · simp
      · simp
    · unfold stopAudioAnalysis
      simp only [h1, h2]
      simp [h2]
  refine ⟨hpend, ?_, rfl, rfl, rfl, rfl, ?_, ?_⟩
  · simp [hasScheduledFrame, hpend]
  · intro tracks htr t ht
    unfold stopAudioAnalysis
    simp only [htr, Option.getD_some, List.mem_append, List.mem_map]
    exact Or.inl (Or.inr ⟨t, ht, rfl⟩)
  · intro hctx
    unfold stopAudioAnalysis
    simp [hctx]

/-- A concrete mid-frame Active state: all handles held, a frame with id 5
pending, id 5 stored in animationRef. -/
def activeState : CaptureState :=
  { canvasRef := some (), audioContextRef := some (), analyserRef := some (),
    streamRef := some [0, 1], animationId := 5, pending := some 5,
    spectrumHistory := [], isActive := true, errorReported := false }

/-- Witness for C2 at the concrete Active state. -/
theorem stopAudioAnalysis_releases_witness :
    PendingConsistent activeState ∧
    (stopAudioAnalysis activeState).1.pending = none ∧
    StopEvent.stopTrack 0 ∈ (stopAudioAnalysis activeState).2 ∧
    StopEvent.closeContext ∈ (stopAudioAnalysis activeState).2 :=
  ⟨by decide,
   (stopAudioAnalysis_releases activeState (by decide)).1,
   (stopAudioAnalysis_releases activeState (by decide)).2.2.2.2.2.2.1
     [0, 1] rfl 0 (by decide),
   (stopAudioAnalysis_releases activeState (by decide)).2.2.2.2.2.2.2 rfl⟩

/-- A state in which the sampler is not ready: the analyser ref is null
(and no frame is pending). -/
def skipState : CaptureState :=
  { canvasRef := some (), audioContextRef := none, analyserRef := none,
    streamRef := none, animationId := 0, pending := none,
    spectrumHistory := [], isActive := false, errorReported := false }

/-- The frame environment for the skipped frame. -/
def skipEnv : AnimateEnv :=
  { now := 0, dataArray := [], ctxOk := true, freshId := 1 }

/-- C3 counterexample: at a concrete state whose analyser is not ready,
animate does skip the frame silently (state unchanged, nothing appended or
drawn), but no next frame is scheduled — the pending callback of the
resulting state is none, refuting the claim that the frame loop continues
with a next frame still scheduled. -/
theorem animate_skip_counterexample :
    skipState.analyserRef = none ∧
    animate skipState skipEnv = (skipState, false) ∧
    (animate skipState skipEnv).1.pending = none := by
  decide

/-- C3 amended: when the sampler or the drawing surface is not ready at the
start of a frame, animate returns the state unchanged and reports no frame
processed — no snapshot appended, nothing drawn, no exception, and also no
next frame scheduled: the frame loop terminates until a new session starts
it again. -/
theorem animate_skip :
    ∀ (s : CaptureState) (env : AnimateEnv),
      (s.analyserRef = none ∨ s.canvasRef = none ∨ env.ctxOk = false) →
      animate s env = (s, false) := by
  intro s env h
  unfold animate
  rcases h with h | h | h
  · simp [h]
  · rcases h1 : s.analyserRef with _ | v
    · simp [h1]
    · simp [h1, h]
  · rcases h1 : s.analyserRef with _ | v
    · simp [h1]
    · rcases h2 : s.canvasRef with _ | w
      · simp [h1, h2]
      · simp [h1, h2, h]

/-- Witness for C3 amended at the concrete skip state. -/
theorem animate_skip_witness :
    (skipState.analyserRef = none ∨ skipState.canvasRef = none ∨
      skipEnv.ctxOk = false) ∧
    animate skipState skipEnv = (skipState, false) :=
  ⟨Or.inl rfl, animate_skip skipState skipEnv (Or.inl rfl)⟩

/-- The acquisition environment of the C4 failing input: getUserMedia
resolves with a stream holding one track, then the AudioContext
constructor throws. -/
def acqCtxFailEnv : AcqEnv :=
  { gumOk := true, tracks := [0], ctxOk := false, analyserOk := true,
    sourceOk := true }

/-- C4, evaluated at the failing input: when acquisition throws after the
stream was obtained, the catch path of startAudioAnalysis reports the error
and turns the observable status inactive, but the stream acquired before
the failure point is still held in the stream ref — its tracks were never
stopped, no release happened, contradicting the required release of
partially acquired resources. -/
theorem startAudioAnalysis_leak :
    (startAudioAnalysis initState acqCtxFailEnv).streamRef = some [0] ∧
    (startAudioAnalysis initState acqCtxFailEnv).isActive = false ∧
    (startAudioAnalysis initState acqCtxFailEnv).errorReported = true := by
  decide

/-- C8: for every canvas width and every nonzero retention window, the
age-to-pixel map sends age zero to the right edge and a full retention
window of age to the left edge. -/
theorem ageToX_endpoints :
    ∀ w W : ℝ, W ≠ 0 → ageToX 0 w W = w ∧ ageToX W w W = 0 := by
  intro w W hW
  constructor
  · simp [ageToX]
  · unfold ageToX
    field_simp

/-- Witness for C8 at the concrete canvas width 800 and the concrete
retention window 300000 ms of the component. -/
theorem ageToX_endpoints_witness :
    (300000 : ℝ) ≠ 0 ∧ ageToX 0 800 300000 = 800 ∧ ageToX 300000 800 300000 = 0 :=
  ⟨by norm_num,
   (ageToX_endpoints 800 300000 (by norm_num)).1,
   (ageToX_endpoints 800 300000 (by norm_num)).2⟩

/-- C9: with an empty history the renderer emits no spectrogram cell and no
spectrogram label, while still emitting the instantaneous spectrum bars and
the 220 Hz reference line; every draw function is total, so nothing can
crash. -/
theorem drawSpectrum_emptyHistory :
    ∀ (width height : ℕ) (nyq : ℝ) (dataArray : List ℕ) (now : ℤ),
      (drawSpectrum width height nyq dataArray [] now).spectrogramCells = [] ∧
      (drawSpectrum width height nyq dataArray [] now).spectrogramLabels = [] ∧
      (drawSpectrum width height nyq dataArray [] now).spectrumBars =
        drawLogSpectrum width height nyq dataArray ∧
      (drawSpectrum width height nyq dataArray [] now).refLine =
        draw220HzLine width height nyq := by
  intro width height nyq dataArray now
  refine ⟨?_, ?_, rfl, rfl⟩
  · simp [drawSpectrum, drawSpectrogram]
  · simp [drawSpectrum, drawSpectrogram]

lemma pixelToFrequency_zero (width : ℕ) (nyq : ℝ) :
    pixelToFrequency width nyq 0 = 20 := by
  unfold pixelToFrequency
  rw [zero_div, zero_mul, add_zero]
  exact Real.rpow_logb (by norm_num) (by norm_num) (by norm_num)

lemma frequencyToX_20 (width : ℕ) (nyq : ℝ) : frequencyToX width nyq 20 = 0 := by
  unfold frequencyToX
  rw [sub_self, zero_div, zero_mul]

/-- C10: every amplitude-array read performed by the drawLogSpectrum loop
happens under the guard on the rounded bin index, so for every canvas
width, every sample rate and every pixel column the index read is at least
zero and strictly below the buffer length — the access is in bounds. -/
theorem drawLogSpectrum_access_in_bounds :
    ∀ (width : ℕ) (nyq : ℝ) (bufferLength : ℕ),
      ∀ bi ∈ drawLogSpectrumAccesses width nyq bufferLength,
        0 ≤ bi ∧ bi.toNat < bufferLength := by
  intro width nyq n bi hbi
  obtain ⟨px, hpx, hf⟩ := List.mem_filterMap.mp hbi
  by_cases h : 0 ≤ xToFrequencyBinIndex width nyq n (px : ℝ) ∧
      xToFrequencyBinIndex width nyq n (px : ℝ) < (n : ℤ)
  · simp only [if_pos h, Option.some.injEq] at hf
    subst hf
    exact ⟨h.1, by omega⟩
  · simp only [if_neg h] at hf
    exact absurd hf (by simp)

lemma xToFrequencyBinIndex_small : xToFrequencyBinIndex 2 40 2 0 = 1 := by
  unfold xToFrequencyBinIndex
  rw [pixelToFrequency_zero]
  norm_num

lemma accesses_small : drawLogSpectrumAccesses 2 40 2 = [1] := by
  have h0 : (List.range 2).filter (fun px => px % 2 = 0) = [0] := by decide
  unfold drawLogSpectrumAccesses
  rw [h0]
  simp [xToFrequencyBinIndex_small]

lemma one_mem_accesses : (1 : ℤ) ∈ drawLogSpectrumAccesses 2 40 2 := by
  rw [accesses_small]
  exact List.mem_singleton.mpr rfl

/-- Witness for C10: a concrete in-range access of the loop. -/
theorem drawLogSpectrum_access_in_bounds_witness :
    (1 : ℤ) ∈ drawLogSpectrumAccesses 2 40 2 ∧
      0 ≤ (1 : ℤ) ∧ (1 : ℤ).toNat < 2 :=
  ⟨one_mem_accesses, drawLogSpectrum_access_in_bounds 2 40 2 1 one_mem_accesses⟩

lemma xToFrequencyBinIndex_22050 (width : ℕ) :
    xToFrequencyBinIndex width 22050 1024 0 = 1 := by
  unfold xToFrequencyBinIndex
  rw [pixelToFrequency_zero]
  have h1 : (20 : ℝ) / ((22050 : ℝ) / ((1024 : ℕ) : ℝ)) = 2048 / 2205 := by
    norm_num
  rw [h1, round_eq]
  norm_num [Int.floor_eq_iff]

lemma drawLogSpectrum_mem_of (width height : ℕ) (nyq : ℝ) (dataArray : List ℕ)
    (px : ℕ) (r : Rect)
    (hpx : px ∈ (List.range width).filter (fun p => p % 2 = 0))
    (hguard : 0 ≤ xToFrequencyBinIndex width nyq dataArray.length (px : ℝ) ∧
      xToFrequencyBinIndex width nyq dataArray.length (px : ℝ) < (dataArray.length : ℤ))
    (hr : r = Rect.mk (px : ℝ)
      ((height : ℝ) - ((dataArray.getD
        (xToFrequencyBinIndex width nyq dataArray.length (px : ℝ)).toNat 0 : ℕ) : ℝ)
          / 255 * (height : ℝ))
      2
      (((dataArray.getD
        (xToFrequencyBinIndex width nyq dataArray.length (px : ℝ)).toNat 0 : ℕ) : ℝ)
          / 255 * (height : ℝ))) :
    r ∈ drawLogSpectrum width height nyq dataArray := by
  unfold drawLogSpectrum
  rw [List.mem_filterMap]
  refine ⟨px, hpx, ?_⟩
  dsimp only
  rw [if_pos hguard, hr]

lemma barRect_mem :
    Rect.mk 0 0 2 400 ∈ drawLogSpectrum 800 400 22050 (List.replicate 1024 255) := by
  refine drawLogSpectrum_mem_of 800 400 22050 (List.replicate 1024 255) 0 _ ?_ ?_ ?_
  · exact List.mem_filter.mpr ⟨List.mem_range.mpr (by norm_num), by norm_num⟩
  · constructor <;>
      · simp only [List.length_replicate, Nat.cast_zero, xToFrequencyBinIndex_22050]
        norm_num
  · simp only [List.length_replicate, Nat.cast_zero, xToFrequencyBinIndex_22050]
    have hg : (List.replicate 1024 (255 : ℕ)).getD (1 : ℤ).toNat 0 = 255 := by
      rw [List.getD_eq_getElem?_getD, List.getElem?_replicate_of_lt (by norm_num)]
      rfl
    rw [hg]
    norm_num

/-- C5 counterexample: at the concrete canvas (800 by 400), the concrete
sample rate 44100 (nyquist 22050) and a full-scale amplitude array, the
instantaneous-spectrum step draws the bar of pixel column 0 from the very
top of the canvas down to its bottom edge, so this filled rectangle does
not lie within the top two-thirds of the canvas — its bottom edge 400
exceeds two thirds of the height. -/
theorem spectrum_bar_counterexample :
    Rect.mk 0 0 2 400 ∈ drawLogSpectrum 800 400 22050 (List.replicate 1024 255) ∧
    ¬ ((Rect.mk 0 0 2 400).y + (Rect.mk 0 0 2 400).h ≤ 2 / 3 * ((400 : ℕ) : ℝ)) :=
  ⟨barRect_mem, by norm_num⟩

/-- C5 amended: the 220 Hz reference line spans exactly the top two-thirds
of the canvas and the spectrogram cells lie within the bottom third, but
the instantaneous-spectrum bars are anchored at the bottom edge of the
canvas (the bottom of every bar is the canvas height), so a bar taller
than a third of the canvas reaches into the spectrogram band. -/
theorem layer_layout :
    ∀ (width height : ℕ) (nyq : ℝ) (dataArray : List ℕ)
      (history : List SpectrumData) (now : ℤ),
      ((draw220HzLine width height nyq).y0 = 0 ∧
        (draw220HzLine width height nyq).y1 = 2 / 3 * (height : ℝ)) ∧
      (∀ r ∈ drawLogSpectrum width height nyq dataArray,
        r.y + r.h = (height : ℝ) ∧ 0 ≤ r.h) ∧
      (∀ c ∈ (drawSpectrogram width height history now).1,
        (height : ℝ) - (height : ℝ) / 3 ≤ c.y ∧ c.y + c.h ≤ (height : ℝ)) := by
  intro width height nyq dataArray history now
  refine ⟨⟨rfl, ?_⟩, ?_, ?_⟩
  · unfold draw220HzLine
    dsimp only
    ring
  · intro r hr
    unfold drawLogSpectrum at hr
    obtain ⟨px, hpx, hf⟩ := List.mem_filterMap.mp hr
    dsimp only at hf
    split at hf
    · cases Option.some.inj hf
      constructor
      · dsimp only
        ring
      · dsimp only
        positivity
    · exact absurd hf (by simp)
  · intro c hc
    unfold drawSpectrogram at hc
    split at hc
    · simp at hc
    · simp only [] at hc
      obtain ⟨data, hdata, hinner⟩ := List.mem_flatMap.mp hc
      split at hinner
      · simp at hinner
      · obtain ⟨i, hi, hceq⟩ := List.mem_map.mp hinner
        subst hceq
        have hin : i < data.frequencies.length := List.mem_range.mp hi
        have hn0 : 0 < data.frequencies.length := by omega
        have hnR : (0 : ℝ) < (data.frequencies.length : ℝ) := by exact_mod_cast hn0
        have hfs : 0 ≤ (height : ℝ) / 3 / (data.frequencies.length : ℝ) := by
          positivity
        have hle : ((i : ℝ) + 1) ≤ (data.frequencies.length : ℝ) := by
          exact_mod_cast hin
        have h2 : ((i : ℝ) + 1) * ((height : ℝ) / 3 / (data.frequencies.length : ℝ)) ≤
            (data.frequencies.length : ℝ) *
              ((height : ℝ) / 3 / (data.frequencies.length : ℝ)) :=
          mul_le_mul_of_nonneg_right hle hfs
        have h3 : (data.frequencies.length : ℝ) *
            ((height : ℝ) / 3 / (data.frequencies.length : ℝ)) = (height : ℝ) / 3 := by
          rw [mul_comm]
          exact div_mul_cancel₀ _ (ne_of_gt hnR)
        have h4 : 0 ≤ (i : ℝ) * ((height : ℝ) / 3 / (data.frequencies.length : ℝ)) := by
          positivity
        have h5 : (i : ℝ) * ((height : ℝ) / 3 / (data.frequencies.length : ℝ)) +
            (height : ℝ) / 3 / (data.frequencies.length : ℝ) =
            ((i : ℝ) + 1) * ((height : ℝ) / 3 / (data.frequencies.length : ℝ)) := by
          ring
        constructor
        · dsimp only
          linarith
        · dsimp only
          linarith

/-- A one-entry history used to exhibit a concrete spectrogram cell. -/
def cellHist : List SpectrumData := [SpectrumData.mk 0 [5]]

lemma cell_mem :
    Rect.mk 800 ((400 : ℝ) - 400 / 3) 2 (400 / 3) ∈
      (drawSpectrogram 800 400 cellHist 0).1 := by
  unfold drawSpectrogram cellHist
  rw [if_neg (by simp)]
  simp only [List.flatMap_cons, List.flatMap_nil, List.append_nil]
  norm_num [HISTORY_DURATION, ageToX, Rect.mk.injEq]

/-- Witness for C5 amended: the concrete full-height bar is anchored at the
bottom edge, and the concrete spectrogram cell sits inside the bottom
third. -/
theorem layer_layout_witness :
    ((Rect.mk 0 0 2 400).y + (Rect.mk 0 0 2 400).h = ((400 : ℕ) : ℝ) ∧
      0 ≤ (Rect.mk 0 0 2 400).h) ∧
    (((400 : ℕ) : ℝ) - ((400 : ℕ) : ℝ) / 3 ≤
        (Rect.mk 800 ((400 : ℝ) - 400 / 3) 2 (400 / 3)).y ∧
      (Rect.mk 800 ((400 : ℝ) - 400 / 3) 2 (400 / 3)).y +
        (Rect.mk 800 ((400 : ℝ) - 400 / 3) 2 (400 / 3)).h ≤ ((400 : ℕ) : ℝ)) :=
  ⟨(layer_layout 800 400 22050 (List.replicate 1024 255) cellHist 0).2.1
      (Rect.mk 0 0 2 400) barRect_mem,
   (layer_layout 800 400 22050 (List.replicate 1024 255) cellHist 0).2.2
      (Rect.mk 800 ((400 : ℝ) - 400 / 3) 2 (400 / 3)) cell_mem⟩

lemma pow_ten_ge_two : (2 : ℝ) ≤ ((2205 : ℝ) / 2048) ^ (10 : ℕ) := by
  rw [div_pow, le_div_iff₀ (by positivity)]
  norm_num

lemma pow_bound : (2205 : ℝ) / 2 < ((2205 : ℝ) / 2048) ^ (800 : ℕ) := by
  have h80 : ((2 : ℝ)) ^ (80 : ℕ) ≤ (((2205 : ℝ) / 2048) ^ (10 : ℕ)) ^ (80 : ℕ) :=
    pow_le_pow_left₀ (by norm_num) pow_ten_ge_two 80
  calc (2205 : ℝ) / 2 < (2 : ℝ) ^ (80 : ℕ) := by norm_num
    _ ≤ (((2205 : ℝ) / 2048) ^ (10 : ℕ)) ^ (80 : ℕ) := h80
    _ = ((2205 : ℝ) / 2048) ^ (800 : ℕ) := by rw [← pow_mul]

lemma roundTrip_big : 1 < roundTripX 800 1024 22050 20 := by
  unfold roundTripX binIndexToFrequency
  rw [frequencyToX_20, xToFrequencyBinIndex_22050]
  have harg : (((1 : ℤ) : ℝ)) * ((22050 : ℝ) / ((1024 : ℕ) : ℝ)) = 22050 / 1024 := by
    push_cast
    ring
  rw [harg]
  unfold frequencyToX
  have hnum : Real.logb 10 ((22050 : ℝ) / 1024) - Real.logb 10 20 =
      Real.logb 10 ((2205 : ℝ) / 2048) := by
    rw [← Real.logb_div (by norm_num) (by norm_num)]
    norm_num
  have hden : Real.logb 10 (22050 : ℝ) - Real.logb 10 20 =
      Real.logb 10 ((2205 : ℝ) / 2) := by
    rw [← Real.logb_div (by norm_num) (by norm_num)]
    norm_num
  rw [hnum, hden, show (((800 : ℕ)) : ℝ) = 800 from by norm_num]
  have hdpos : 0 < Real.logb 10 ((2205 : ℝ) / 2) :=
    Real.logb_pos (by norm_num) (by norm_num)
  rw [div_mul_eq_mul_div, lt_div_iff₀ hdpos, one_mul]
  have hpow : Real.logb 10 ((2205 : ℝ) / 2048) * 800 =
      Real.logb 10 (((2205 : ℝ) / 2048) ^ (800 : ℕ)) := by
    rw [Real.logb_pow]
    push_cast
    ring
  rw [hpow]
  exact Real.logb_lt_logb (by norm_num) (by norm_num) pow_bound

/-- C7 counterexample: at the concrete canvas width 800, nyquist 22050 and
1024 bins, the frequency 20 Hz maps to pixel 0, the inverse of the bar
renderer at that pixel snaps to bin 1, and the frequency of bin 1 maps
back to a pixel more than one pixel away (about 8.4): the round trip
through the nearest bin is not within one pixel. -/
theorem frequency_roundtrip_counterexample :
    1 < |roundTripX 800 1024 22050 20 - frequencyToX 800 22050 20| := by
  rw [frequencyToX_20, sub_zero, abs_of_pos (lt_trans zero_lt_one roundTrip_big)]
  exact roundTrip_big

/-- C7 amended: the continuous part of the mapping pair is an exact
inverse: for every frequency in the domain, mapping it to its pixel and
back through the logarithmic pixel-to-frequency map recovers the frequency
exactly; the round-trip error of the claim comes entirely from the
nearest-bin quantisation, which can displace low frequencies by many
pixels. -/
theorem frequencyToX_leftInverse :
    ∀ (width : ℕ) (nyq f : ℝ), 0 < width → 20 < nyq → 20 ≤ f → f ≤ nyq →
      pixelToFrequency width nyq (frequencyToX width nyq f) = f := by
  intro width nyq f hw hn hf hfn
  have hfpos : (0 : ℝ) < f := lt_of_lt_of_le (by norm_num) hf
  have hr : Real.logb 10 20 < Real.logb 10 nyq :=
    Real.logb_lt_logb (by norm_num) (by norm_num) hn
  have hrne : Real.logb 10 nyq - Real.logb 10 20 ≠ 0 := sub_ne_zero.mpr hr.ne'
  have hwne : ((width : ℕ) : ℝ) ≠ 0 := Nat.cast_ne_zero.mpr (by omega)
  unfold pixelToFrequency frequencyToX
  have hsimp : (Real.logb 10 f - Real.logb 10 20) /
      (Real.logb 10 nyq - Real.logb 10 20) * (width : ℝ) / (width : ℝ) *
      (Real.logb 10 nyq - Real.logb 10 20) =
      Real.logb 10 f - Real.logb 10 20 := by
    field_simp
    ring
  rw [hsimp, show Real.logb 10 20 + (Real.logb 10 f - Real.logb 10 20) =
    Real.logb 10 f from by ring]
  exact Real.rpow_logb (by norm_num) (by norm_num) hfpos

/-- Witness for C7 amended at the concrete input 200 Hz with nyquist 22050
and canvas width 800. -/
theorem frequencyToX_leftInverse_witness :
    (0 < 800 ∧ (20 : ℝ) < 22050 ∧ (20 : ℝ) ≤ 200 ∧ (200 : ℝ) ≤ 22050) ∧
    pixelToFrequency 800 22050 (frequencyToX 800 22050 200) = 200 :=
  ⟨⟨by norm_num, by norm_num, by norm_num, by norm_num⟩,
   frequencyToX_leftInverse 800 22050 200 (by norm_num) (by norm_num)
     (by norm_num) (by norm_num)⟩
